import Mathlib

/-!
Shallow embedding of the student expense tracker (src/et.py).

The program is a Streamlit app over a SQLite database with two tables,
`users(id, username, password)` and
`expenses(id, user_id, date, category, amount, note)`.  We model the
database as two Lean lists together with the autoincrement counters, and
each UI handler as a function from database state (plus the handler's
inputs) to a new state and the handler's visible outcome.  The pandas
aggregations on the dashboard (`sum`, `groupby`, `idxmax`, `to_period`)
are modelled as list computations; pandas `groupby` sorts the group keys
ascending, and `idxmax` returns the first index attaining the maximum.

Dates are stored as strings: both the add handler and the edit handler
persist `date.strftime("%Y-%m-%d")`.  Date comparisons made through
`pd.to_datetime` agree with lexicographic string order on such
ISO-formatted dates, so the model compares date strings lexicographically.
Amounts come from `st.number_input(min_value=1, step=1)`, hence are
natural numbers.  `hash_password` is SHA-256 from the `hashlib` library;
the model abstracts that primitive as a function parameter `H`.
-/

/-- One row of the `expenses` table: `(id, user_id, date, category, amount, note)`. -/
structure ExpenseRec where
  id : Nat
  user_id : Nat
  date : String
  category : String
  amount : Nat
  note : String
  deriving DecidableEq, Repr

/-- One row of the `users` table: `(id, username, password)`, where
`password` holds the hash, as in the source. -/
structure UserRec where
  id : Nat
  username : String
  password : String
  deriving DecidableEq, Repr

/-- The persistent state: both tables plus their autoincrement counters
(SQLite assigns rowids 1, 2, 3, …). -/
structure DB where
  users : List UserRec
  nextUserId : Nat
  expenses : List ExpenseRec
  nextExpenseId : Nat
  deriving DecidableEq, Repr

/-- The freshly initialised database (`init_db` creates empty tables). -/
def emptyDB : DB := ⟨[], 1, [], 1⟩

/-- A calendar date as produced by `st.date_input` (a Python `datetime.date`). -/
structure YMD where
  year : Nat
  month : Nat
  day : Nat
  deriving DecidableEq, Repr

/-- The range of fields a Python `datetime.date` can carry. -/
def YMD.Valid (d : YMD) : Prop :=
  1 ≤ d.year ∧ d.year ≤ 9999 ∧ 1 ≤ d.month ∧ d.month ≤ 12 ∧ 1 ≤ d.day ∧ d.day ≤ 31

/-- Two-digit zero-padded decimal rendering, as `strftime("%m")`/`"%d"`. -/
def pad2 (n : Nat) : String :=
  String.mk [Nat.digitChar (n / 10 % 10), Nat.digitChar (n % 10)]

/-- Four-digit zero-padded decimal rendering, as `strftime("%Y")` for years up to 9999. -/
def pad4 (n : Nat) : String :=
  String.mk [Nat.digitChar (n / 1000 % 10), Nat.digitChar (n / 100 % 10),
             Nat.digitChar (n / 10 % 10), Nat.digitChar (n % 10)]

/-- Rendering `date.strftime("%Y-%m-%d")`, the format both mutation handlers persist. -/
def formatDate (d : YMD) : String :=
  pad4 d.year ++ "-" ++ pad2 d.month ++ "-" ++ pad2 d.day

/-- The visible outcome of the Sign Up handler (src/et.py lines 81–95). -/
inductive SignUpResult where
  | success
  | emptyFields
  | passwordMismatch
  | duplicateUsername
  deriving DecidableEq, Repr

/-- Sign Up handler (src/et.py lines 81–95): rejects empty fields and a
mismatched confirmation, then inserts `(username, hash_password(password))`;
the `UNIQUE` constraint on `username` raises `IntegrityError` on a
duplicate.  `H` stands for `hash_password` (SHA-256). -/
def signUp (H : String → String) (db : DB) (new_user new_pass confirm_pass : String) :
    DB × SignUpResult :=
  if new_user = "" ∨ new_pass = "" then (db, SignUpResult.emptyFields)
  else if new_pass ≠ confirm_pass then (db, SignUpResult.passwordMismatch)
  else if db.users.any (fun u => u.username == new_user) then (db, SignUpResult.duplicateUsername)
  else
    ({ db with
        users := db.users ++ [⟨db.nextUserId, new_user, H new_pass⟩],
        nextUserId := db.nextUserId + 1 },
     SignUpResult.success)

/-- Login handler (src/et.py lines 101–113):
`SELECT * FROM users WHERE username=? AND password=?` with the hashed
password; `some u` is a successful login, `none` the failure branch. -/
def login (H : String → String) (db : DB) (username password : String) : Option UserRec :=
  db.users.find? (fun u => u.username == username && u.password == H password)

/-- The message the login handler shows for each outcome. -/
def loginMessage (r : Option UserRec) : String :=
  match r with
  | some u => "✅ Welcome, " ++ u.username ++ "!"
  | none => "❌ Invalid username or password"

/-- Function `get_expenses` (src/et.py lines 57–63):
`SELECT id,date,category,amount,note FROM expenses WHERE user_id=?`. -/
def get_expenses (db : DB) (user_id : Nat) : List ExpenseRec :=
  db.expenses.filter (fun r => r.user_id == user_id)

/-- Add Expense handler (src/et.py lines 154–159): inserts the row with the
formatted date; the pair's second component is the rowid SQLite assigns. -/
def addExpense (db : DB) (user_id : Nat) (date : YMD) (category : String)
    (amount : Nat) (note : String) : DB × Nat :=
  ({ db with
      expenses := db.expenses ++
        [⟨db.nextExpenseId, user_id, formatDate date, category, amount, note⟩],
      nextExpenseId := db.nextExpenseId + 1 },
   db.nextExpenseId)

/-- edit_form save handler (src/et.py lines 196–200):
`UPDATE expenses SET date=?,category=?,amount=?,note=? WHERE id=?`. -/
def updateExpense (db : DB) (rid : Nat) (d : YMD) (category : String)
    (amount : Nat) (note : String) : DB :=
  { db with
      expenses := db.expenses.map (fun r =>
        if r.id = rid then
          { r with date := formatDate d, category := category,
                   amount := amount, note := note }
        else r) }

/-- Delete handler (src/et.py lines 202–207):
`DELETE FROM expenses WHERE id=?`, then unconditionally shows the deletion
warning; there is no not-found branch. -/
def deleteExpense (db : DB) (rid : Nat) : DB × String :=
  ({ db with expenses := db.expenses.filter (fun r => r.id != rid) },
   "🗑️ Deleted expense ID " ++ toString rid ++ "! Refresh to update list.")

/-- Lexicographic order on strings, decided by structural recursion over the
character lists so that the kernel can evaluate it (`String.decidableLE`
itself recurses on iterators and does not reduce definitionally). -/
def strLeDec : DecidableRel (fun a b : String => a ≤ b) := fun a b =>
  decidable_of_iff (a.data ≤ b.data) (@String.le_iff_toList_le a b).symm

/-- Ascending sort of a list of strings, as pandas `groupby` sorts its group keys. -/
def sortStr (l : List String) : List String :=
  @List.insertionSort String (fun a b => a ≤ b) strLeDec l

/-- The fixed category enumeration offered by the selectbox (src/et.py line 150). -/
def categories : List String := ["Food", "Travel", "Shopping", "Entertainment", "Other"]

/-- Sum of the `Amount` column of a record list. -/
def sumAmounts (rs : List ExpenseRec) : Nat :=
  (rs.map (fun r => r.amount)).sum

/-- Dashboard `total_expense` (src/et.py line 129): `df["Amount"].sum()`, 0 when empty. -/
def total_expense (rs : List ExpenseRec) : Nat := sumAmounts rs

/-- The summed amount of one category group. -/
def catSum (rs : List ExpenseRec) (c : String) : Nat :=
  sumAmounts (rs.filter (fun r => r.category == c))

/-- The distinct categories present in a record list, sorted ascending —
the group keys pandas `groupby("Category")` produces. -/
def groupKeys (rs : List ExpenseRec) : List String :=
  sortStr ((rs.map (fun r => r.category)).dedup)

/-- Aggregation `category_summary` (src/et.py line 210):
`df.groupby("Category")["Amount"].sum()` — pandas `groupby` sorts the group
keys ascending and sums each group. -/
def category_summary (rs : List ExpenseRec) : List (String × Nat) :=
  (groupKeys rs).map (fun c => (c, catSum rs c))

/-- pandas `Series.idxmax`: the first index attaining the maximal value. -/
def argmaxFirst : List (String × Nat) → Option (String × Nat)
  | [] => none
  | p :: l =>
    match argmaxFirst l with
    | none => some p
    | some q => if q.2 > p.2 then some q else some p

/-- Dashboard `top_category` (src/et.py line 130):
`df.groupby("Category")["Amount"].sum().idxmax()` when the frame is
nonempty; the empty frame yields the sentinel rendered as "N/A". -/
def top_category (rs : List ExpenseRec) : Option String :=
  (argmaxFirst (category_summary rs)).map (fun p => p.1)

/-- Filter/Search handler (src/et.py lines 167–176): keep the chosen
category (or all of them for "All"), then keep dates between the bounds,
inclusive; `pd.to_datetime` comparison on ISO-formatted dates coincides
with lexicographic string order. -/
def filterExpenses (rs : List ExpenseRec) (filter_category : String)
    (start_date end_date : String) : List ExpenseRec :=
  (if filter_category = "All" then rs
   else rs.filter (fun r => r.category == filter_category)).filter
    (fun r => decide (start_date ≤ r.date) && decide (r.date ≤ end_date))

/-- Value `df["Date"].min()`, the default start date of the filter widget. -/
def minDate (rs : List ExpenseRec) : String :=
  match rs.map (fun r => r.date) with
  | [] => ""
  | d :: ds => ds.foldl min d

/-- Value `df["Date"].max()`, the default end date of the filter widget. -/
def maxDate (rs : List ExpenseRec) : String :=
  match rs.map (fun r => r.date) with
  | [] => ""
  | d :: ds => ds.foldl max d

/-- Truncation `pd.to_datetime(...).dt.to_period("M")`: the calendar month of a
record, i.e. the `YYYY-MM` prefix (first seven characters) of its ISO
date string. -/
def monthKey (r : ExpenseRec) : String := String.mk (r.date.data.take 7)

/-- The summed amount of one month group. -/
def monthSum (rs : List ExpenseRec) (m : String) : Nat :=
  sumAmounts (rs.filter (fun r => monthKey r == m))

/-- The distinct months present in a record list, sorted ascending — the
group keys pandas `groupby("Month")` produces. -/
def monthKeys (rs : List ExpenseRec) : List String :=
  sortStr ((rs.map monthKey).dedup)

/-- Aggregation `monthly_summary` (src/et.py lines 222–225):
`groupby("Month")["Amount"].sum()` over the month column — group keys
sorted ascending, amounts summed per month. -/
def monthly_summary (rs : List ExpenseRec) : List (String × Nat) :=
  (monthKeys rs).map (fun m => (m, monthSum rs m))

/-- Decides whether a string has the shape `DDDD-DD-DD` (digits and dashes),
the ISO `YYYY-MM-DD` date format. -/
def isISODate (s : String) : Bool :=
  match s.data with
  | [y1, y2, y3, y4, h1, m1, m2, h2, d1, d2] =>
    y1.isDigit && y2.isDigit && y3.isDigit && y4.isDigit && h1 == '-' &&
    m1.isDigit && m2.isDigit && h2 == '-' && d1.isDigit && d2.isDigit
  | _ => false

/-- The database states reachable through the application's handlers,
starting from the freshly initialised database.  Dates entered through
`st.date_input` are valid calendar dates. -/
inductive Reachable : DB → Prop where
  | init : Reachable emptyDB
  | signUpStep (H : String → String) (u p c : String) {db : DB} :
      Reachable db → Reachable (signUp H db u p c).1
  | addStep {db : DB} (uid : Nat) (d : YMD) (cat : String) (amt : Nat) (note : String) :
      Reachable db → d.Valid → Reachable (addExpense db uid d cat amt note).1
  | updateStep {db : DB} (rid : Nat) (d : YMD) (cat : String) (amt : Nat) (note : String) :
      Reachable db → d.Valid → Reachable (updateExpense db rid d cat amt note)
  | deleteStep {db : DB} (rid : Nat) : Reachable db → Reachable (deleteExpense db rid).1

example : formatDate ⟨2024, 1, 5⟩ = "2024-01-05" := by decide

example : monthKey ⟨1, 1, "2024-01-05", "Food", 100, ""⟩ = "2024-01" := by decide

example :
    top_category [⟨1, 1, "2024-01-05", "Food", 100, ""⟩, ⟨2, 1, "2024-01-20", "Travel", 50, ""⟩,
      ⟨3, 1, "2024-02-01", "Food", 30, ""⟩] = some "Food" := by decide

example :
    monthly_summary [⟨1, 1, "2024-01-05", "Food", 100, ""⟩, ⟨2, 1, "2024-01-20", "Travel", 50, ""⟩,
      ⟨3, 1, "2024-02-01", "Food", 30, ""⟩] = [("2024-01", 150), ("2024-02", 30)] := by decide

/-! ### Lemmas about the sorted key lists used by the groupby summaries -/

theorem sortStr_perm (l : List String) : List.Perm (sortStr l) l :=
  @List.perm_insertionSort String (fun a b => a ≤ b) strLeDec l

theorem sortStr_sorted (l : List String) :
    List.Pairwise (fun a b : String => a ≤ b) (sortStr l) :=
  @List.sorted_insertionSort String (fun a b => a ≤ b) strLeDec _ _ l

theorem sortStr_nodup {l : List String} (h : l.Nodup) : (sortStr l).Nodup :=
  ((sortStr_perm l).nodup_iff).mpr h

theorem mem_sortStr {a : String} {l : List String} : a ∈ sortStr l ↔ a ∈ l :=
  (sortStr_perm l).mem_iff

theorem sortStr_pairwise_lt {l : List String} (h : l.Nodup) :
    List.Pairwise (fun a b : String => a < b) (sortStr l) := by
  have hs := sortStr_sorted l
  have hn : (sortStr l).Pairwise (fun a b => a ≠ b) := sortStr_nodup h
  exact (hs.and hn).imp (fun hab => lt_of_le_of_ne hab.1 hab.2)

/-! ### C2: total versus per-category summary -/

theorem sumAmounts_filter_partition (p : ExpenseRec → Bool) (rs : List ExpenseRec) :
    sumAmounts (rs.filter p) + sumAmounts (rs.filter (fun r => !(p r))) = sumAmounts rs := by
  have h2 := ((List.filter_append_perm p rs).map (fun r => r.amount)).sum_eq
  simpa [sumAmounts, List.map_append, List.sum_append] using h2

theorem catSum_filter_ne {c c' : String} (hne : c' ≠ c) (rs : List ExpenseRec) :
    catSum (rs.filter (fun r => !(r.category == c))) c' = catSum rs c' := by
  unfold catSum sumAmounts
  rw [List.filter_filter]
  have hf : rs.filter (fun a => a.category == c' && !(a.category == c)) =
      rs.filter (fun r => r.category == c') := by
    apply List.filter_congr
    intro r _
    cases h : r.category == c' with
    | false => simp [h]
    | true =>
      have hc : r.category = c' := by simpa using h
      simp [h, hc, hne]
  rw [hf]

theorem sum_catSum_of_cover (cs : List String) (rs : List ExpenseRec)
    (hnd : cs.Nodup) (hcov : ∀ r ∈ rs, r.category ∈ cs) :
    (cs.map (catSum rs)).sum = total_expense rs := by
  induction cs generalizing rs with
  | nil =>
    have hrs : rs = [] := by
      cases rs with
      | nil => rfl
      | cons r t => exact absurd (hcov r (List.mem_cons_self r t)) (List.not_mem_nil _)
    simp [hrs, total_expense, sumAmounts]
  | cons c cs ih =>
    have hcnotmem : c ∉ cs := (List.nodup_cons.mp hnd).1
    have hnd' : cs.Nodup := (List.nodup_cons.mp hnd).2
    have hpart := sumAmounts_filter_partition (fun r => r.category == c) rs
    have hmap : cs.map (catSum rs) =
        cs.map (catSum (rs.filter (fun r => !(r.category == c)))) := by
      apply List.map_congr_left
      intro c' hc'
      have hne : c' ≠ c := fun h => hcnotmem (h ▸ hc')
      exact (catSum_filter_ne hne rs).symm
    have hcov' : ∀ r ∈ rs.filter (fun r => !(r.category == c)), r.category ∈ cs := by
      intro r hr
      have hmem : r ∈ rs := List.mem_of_mem_filter hr
      have hne : r.category ≠ c := by simpa using List.of_mem_filter hr
      rcases List.mem_cons.mp (hcov r hmem) with h | h
      · exact absurd h hne
      · exact h
    calc ((c :: cs).map (catSum rs)).sum
        = catSum rs c + (cs.map (catSum rs)).sum := by simp
      _ = catSum rs c +
          (cs.map (catSum (rs.filter (fun r => !(r.category == c))))).sum := by rw [hmap]
      _ = catSum rs c + total_expense (rs.filter (fun r => !(r.category == c))) := by
          rw [ih _ hnd' hcov']
      _ = total_expense rs := hpart

/-- C2: for every sequence of expense records, the total of all amounts
equals the sum over all entries of the per-category summary produced by
grouping records by category and summing amounts within each group. -/
theorem total_eq_sum_category_summary (rs : List ExpenseRec) :
    ((category_summary rs).map (fun p => p.2)).sum = total_expense rs := by
  unfold category_summary groupKeys
  rw [List.map_map]
  have hnd : (sortStr ((rs.map (fun r => r.category)).dedup)).Nodup :=
    sortStr_nodup (List.nodup_dedup _)
  have hcov : ∀ r ∈ rs, r.category ∈ sortStr ((rs.map (fun r => r.category)).dedup) := by
    intro r hr
    rw [mem_sortStr, List.mem_dedup]
    exact List.mem_map_of_mem _ hr
  exact sum_catSum_of_cover _ rs hnd hcov

/-! ### C1: sign-up followed by login -/

/-- C1: after a successful sign-up of `(username, secret)`, logging in with
the same secret succeeds and returns the inserted user row, and logging in
with any secret whose hash differs fails. -/
theorem signup_then_login (H : String → String) (db : DB) (username secret s2 : String)
    (hu : username ≠ "") (hs : secret ≠ "")
    (hok : (signUp H db username secret secret).2 = SignUpResult.success)
    (hdiff : H s2 ≠ H secret) :
    login H (signUp H db username secret secret).1 username secret =
      some ⟨db.nextUserId, username, H secret⟩ ∧
    login H (signUp H db username secret secret).1 username s2 = none := by
  have hany : db.users.any (fun u => u.username == username) = false := by
    by_contra hc
    have hany' : db.users.any (fun u => u.username == username) = true := by
      simpa using hc
    simp [signUp, hu, hs, hany'] at hok
  have hfa : ∀ u ∈ db.users, (u.username == username) = false := by
    intro u hu'
    have := List.any_eq_false.mp hany u hu'
    simpa using this
  have hdb1 : (signUp H db username secret secret).1 =
      { db with
          users := db.users ++ [⟨db.nextUserId, username, H secret⟩],
          nextUserId := db.nextUserId + 1 } := by
    simp [signUp, hu, hs, hany]
  have hnone : ∀ pw : String,
      db.users.find? (fun u => u.username == username && u.password == pw) = none := by
    intro pw
    rw [List.find?_eq_none]
    intro u hu' hmatch
    rw [hfa u hu'] at hmatch
    simp at hmatch
  constructor
  · rw [hdb1]
    unfold login
    rw [List.find?_append, hnone (H secret)]
    simp [List.find?]
  · rw [hdb1]
    unfold login
    rw [List.find?_append, hnone (H s2)]
    have hne : ((H secret : String) == H s2) = false := by
      simpa using (Ne.symm hdiff)
    simp [List.find?, hne]

/-- Witness for C1 at a concrete database, username and secrets. -/
theorem signup_then_login_witness :
    login (fun s => s) (signUp (fun s => s) emptyDB "alice" "pw" "pw").1 "alice" "pw" =
      some ⟨1, "alice", "pw"⟩ ∧
    login (fun s => s) (signUp (fun s => s) emptyDB "alice" "pw" "pw").1 "alice" "qq" = none :=
  signup_then_login (fun s => s) emptyDB "alice" "pw" "qq" (by decide) (by decide) (by decide)
    (by decide)

/-! ### C9: failing logins are indistinguishable -/

/-- C9: a login with an existing username but wrong secret and a login with
an unknown username produce the same public result — both `none`, rendered
by the same error message. -/
theorem login_failure_indistinguishable (H : String → String) (db : DB) (n1 s1 n2 s2 : String)
    (hx : ∃ u ∈ db.users, u.username = n1)
    (hw : ∀ u ∈ db.users, u.username = n1 → u.password ≠ H s1)
    (hn : ∀ u ∈ db.users, u.username ≠ n2) :
    login H db n1 s1 = none ∧ login H db n2 s2 = none ∧
      loginMessage (login H db n1 s1) = loginMessage (login H db n2 s2) := by
  have h1 : login H db n1 s1 = none := by
    unfold login
    rw [List.find?_eq_none]
    intro u hu hmatch
    have hm : u.username = n1 ∧ u.password = H s1 := by simpa using hmatch
    exact hw u hu hm.1 hm.2
  have h2 : login H db n2 s2 = none := by
    unfold login
    rw [List.find?_eq_none]
    intro u hu hmatch
    have hm : u.username = n2 ∧ u.password = H s2 := by simpa using hmatch
    exact hn u hu hm.1
  exact ⟨h1, h2, by rw [h1, h2]⟩

/-- Witness for C9: one stored user, a wrong-secret attempt and an
unknown-user attempt. -/
theorem login_failure_indistinguishable_witness :
    login (fun s => s) ⟨[⟨1, "alice", "pw"⟩], 2, [], 1⟩ "alice" "xx" = none ∧
    login (fun s => s) ⟨[⟨1, "alice", "pw"⟩], 2, [], 1⟩ "bob" "pw" = none ∧
      loginMessage (login (fun s => s) ⟨[⟨1, "alice", "pw"⟩], 2, [], 1⟩ "alice" "xx") =
        loginMessage (login (fun s => s) ⟨[⟨1, "alice", "pw"⟩], 2, [], 1⟩ "bob" "pw") :=
  login_failure_indistinguishable (fun s => s) ⟨[⟨1, "alice", "pw"⟩], 2, [], 1⟩ "alice" "xx"
    "bob" "pw" ⟨⟨1, "alice", "pw"⟩, by decide⟩ (by decide) (by decide)

/-! ### C3: add, update, list round-trip -/

/-- C3: adding a record and then updating the assigned id with new fields
yields, in a subsequent listing of the owner's records, a record carrying
exactly the new fields under the original id, with id and owner unchanged. -/
theorem add_update_list_roundtrip (db : DB) (uid : Nat) (d : YMD) (c : String) (a : Nat)
    (n : String) (d2 : YMD) (c2 : String) (a2 : Nat) (n2 : String) :
    ∃ r ∈ get_expenses
        (updateExpense (addExpense db uid d c a n).1 (addExpense db uid d c a n).2 d2 c2 a2 n2)
        uid,
      r.id = (addExpense db uid d c a n).2 ∧ r.user_id = uid ∧ r.date = formatDate d2 ∧
      r.category = c2 ∧ r.amount = a2 ∧ r.note = n2 := by
  refine ⟨⟨db.nextExpenseId, uid, formatDate d2, c2, a2, n2⟩, ?_, rfl, rfl, rfl, rfl, rfl, rfl⟩
  unfold get_expenses updateExpense addExpense
  rw [List.mem_filter]
  constructor
  · rw [List.map_append, List.mem_append]
    right
    simp
  · simp

/-! ### C4: delete removes the id; a second delete is a silent no-op -/

/-- C4 counterexample: after adding one record and deleting it, a second
delete of the same id does not fail — the handler leaves the store
unchanged and still reports the deletion warning (there is no `NotFound`
outcome in the code). -/
theorem delete_twice_counterexample :
    (deleteExpense (deleteExpense (addExpense emptyDB 1 ⟨2024, 1, 5⟩ "Food" 100 "lunch").1 1).1
        1).1 =
      (deleteExpense (addExpense emptyDB 1 ⟨2024, 1, 5⟩ "Food" 100 "lunch").1 1).1 ∧
    (deleteExpense (deleteExpense (addExpense emptyDB 1 ⟨2024, 1, 5⟩ "Food" 100 "lunch").1 1).1
        1).2 =
      "🗑️ Deleted expense ID 1! Refresh to update list." := by
  constructor
  · decide
  · decide

/-- C4 (amended): delete removes every record with the given id, so a
subsequent listing for any owner never includes it; deleting an id absent
from the store is a no-op that leaves the store unchanged and still reports
the deletion warning instead of failing with `NotFound`. -/
theorem delete_removes_and_absent_noop (db : DB) (rid uid : Nat) :
    (∀ r ∈ get_expenses (deleteExpense db rid).1 uid, r.id ≠ rid) ∧
    ((∀ r ∈ db.expenses, r.id ≠ rid) →
      (deleteExpense db rid).1 = db ∧
      (deleteExpense db rid).2 =
        "🗑️ Deleted expense ID " ++ toString rid ++ "! Refresh to update list.") := by
  constructor
  · intro r hr
    unfold get_expenses deleteExpense at hr
    have hr2 := List.mem_of_mem_filter hr
    have hpred := List.of_mem_filter hr2
    simpa using hpred
  · intro habs
    constructor
    · unfold deleteExpense
      have hfull : db.expenses.filter (fun r => r.id != rid) = db.expenses :=
        List.filter_eq_self.mpr (fun r hr => by simpa using habs r hr)
      rw [hfull]
    · rfl

/-- Witness for C4's amended statement: deleting an absent id at a concrete
store leaves it unchanged. -/
theorem delete_absent_noop_witness :
    (deleteExpense (addExpense emptyDB 1 ⟨2024, 1, 5⟩ "Food" 100 "lunch").1 5).1 =
      (addExpense emptyDB 1 ⟨2024, 1, 5⟩ "Food" 100 "lunch").1 ∧
    (∀ r ∈ get_expenses
        (deleteExpense (addExpense emptyDB 1 ⟨2024, 1, 5⟩ "Food" 100 "lunch").1 5).1 1,
      r.id ≠ 5) :=
  ⟨((delete_removes_and_absent_noop (addExpense emptyDB 1 ⟨2024, 1, 5⟩ "Food" 100 "lunch").1
      5 1).2 (by decide)).1,
   (delete_removes_and_absent_noop (addExpense emptyDB 1 ⟨2024, 1, 5⟩ "Food" 100 "lunch").1
      5 1).1⟩

/-! ### C5: the add handler validates nothing itself -/

/-- C5 counterexample: invoked with amount 0 (below the widget minimum),
the insert still appends a record — there is no `InvalidAmount` failure in
the handler. -/
theorem add_zero_amount_counterexample :
    (addExpense emptyDB 1 ⟨2024, 1, 5⟩ "Food" 0 "snack").1.expenses =
      [⟨1, 1, "2024-01-05", "Food", 0, "snack"⟩] := by decide

/-- C5 (amended): the add handler performs no validation of its own (the
amount widget enforces the minimum of 1 and the category selectbox offers
only the fixed enumeration); for any input — in particular amount ≥ 1 and a
listed category — it appends exactly one new record and returns the
assigned id. -/
theorem add_appends_record (db : DB) (uid : Nat) (d : YMD) (cat : String) (a : Nat) (n : String)
    (ha : 1 ≤ a) (hcat : cat ∈ categories) :
    (addExpense db uid d cat a n).1.expenses =
      db.expenses ++ [⟨db.nextExpenseId, uid, formatDate d, cat, a, n⟩] ∧
    (addExpense db uid d cat a n).2 = db.nextExpenseId :=
  ⟨rfl, rfl⟩

/-- Witness for C5's amended statement at a concrete input. -/
theorem add_appends_record_witness :
    (addExpense emptyDB 1 ⟨2024, 1, 5⟩ "Food" 100 "lunch").1.expenses =
      [⟨1, 1, formatDate ⟨2024, 1, 5⟩, "Food", 100, "lunch"⟩] ∧
    (addExpense emptyDB 1 ⟨2024, 1, 5⟩ "Food" 100 "lunch").2 = 1 :=
  add_appends_record emptyDB 1 ⟨2024, 1, 5⟩ "Food" 100 "lunch" (by decide) (by decide)

/-! ### C6: top_category picks the maximal category, ties to the lexicographically least -/

theorem argmaxFirst_cons_isSome (p : String × Nat) (t : List (String × Nat)) :
    ∃ q, argmaxFirst (p :: t) = some q := by
  unfold argmaxFirst
  cases argmaxFirst t with
  | none => exact ⟨p, rfl⟩
  | some q =>
    by_cases h : q.2 > p.2
    · exact ⟨q, by simp [h]⟩
    · exact ⟨p, by simp [h]⟩

theorem argmaxFirst_mem : ∀ {l : List (String × Nat)} {q : String × Nat},
    argmaxFirst l = some q → q ∈ l := by
  intro l
  induction l with
  | nil => intro q h; simp [argmaxFirst] at h
  | cons p t ih =>
    intro q h
    unfold argmaxFirst at h
    cases ht : argmaxFirst t with
    | none =>
      rw [ht] at h
      have hpq : p = q := by simpa using h
      exact hpq ▸ List.mem_cons_self p t
    | some q' =>
      rw [ht] at h
      by_cases hgt : q'.2 > p.2
      · have hq : q' = q := by simpa [hgt] using h
        exact List.mem_cons_of_mem p (ih (hq ▸ ht))
      · have hpq : p = q := by simpa [hgt] using h
        exact hpq ▸ List.mem_cons_self p t

theorem argmaxFirst_le : ∀ {l : List (String × Nat)} {q : String × Nat},
    argmaxFirst l = some q → ∀ p ∈ l, p.2 ≤ q.2 := by
  intro l
  induction l with
  | nil => intro q h; simp [argmaxFirst] at h
  | cons p t ih =>
    intro q h x hx
    unfold argmaxFirst at h
    cases ht : argmaxFirst t with
    | none =>
      have htnil : t = [] := by
        cases t with
        | nil => rfl
        | cons p' t' =>
          obtain ⟨q', hq'⟩ := argmaxFirst_cons_isSome p' t'
          rw [hq'] at ht
          cases ht
      rw [ht] at h
      have hpq : p = q := by simpa using h
      subst htnil
      have hxp : x = p := by simpa using hx
      rw [hxp, hpq]
    | some q' =>
      rw [ht] at h
      by_cases hgt : q'.2 > p.2
      · have hq : q' = q := by simpa [hgt] using h
        subst hq
        rcases List.mem_cons.mp hx with hxp | hxt
        · rw [hxp]; exact le_of_lt hgt
        · exact ih ht x hxt
      · have hpq : p = q := by simpa [hgt] using h
        subst hpq
        rcases List.mem_cons.mp hx with hxp | hxt
        · rw [hxp]
        · exact le_trans (ih ht x hxt) (le_of_not_lt hgt)

theorem argmaxFirst_first : ∀ {l : List (String × Nat)} {q : String × Nat},
    l.Pairwise (fun a b => a.1 < b.1) → argmaxFirst l = some q →
    ∀ p ∈ l, p.2 = q.2 → q.1 ≤ p.1 := by
  intro l
  induction l with
  | nil => intro q _ h; simp [argmaxFirst] at h
  | cons p t ih =>
    intro q hpw h x hx heq
    have hhead : ∀ b ∈ t, p.1 < b.1 := (List.pairwise_cons.mp hpw).1
    have htail : t.Pairwise (fun a b => a.1 < b.1) := (List.pairwise_cons.mp hpw).2
    unfold argmaxFirst at h
    cases ht : argmaxFirst t with
    | none =>
      have htnil : t = [] := by
        cases t with
        | nil => rfl
        | cons p' t' =>
          obtain ⟨q', hq'⟩ := argmaxFirst_cons_isSome p' t'
          rw [hq'] at ht
          cases ht
      rw [ht] at h
      have hpq : p = q := by simpa using h
      subst htnil
      have hxp : x = p := by simpa using hx
      rw [hxp, ← hpq]
    | some q' =>
      rw [ht] at h
      by_cases hgt : q'.2 > p.2
      · have hq : q' = q := by simpa [hgt] using h
        subst hq
        rcases List.mem_cons.mp hx with hxp | hxt
        · exact absurd (heq ▸ hgt) (by rw [hxp]; exact lt_irrefl _)
        · exact ih htail ht x hxt heq
      · have hpq : p = q := by simpa [hgt] using h
        subst hpq
        rcases List.mem_cons.mp hx with hxp | hxt
        · rw [hxp]
        · exact le_of_lt (hhead x hxt)

theorem mem_groupKeys {rs : List ExpenseRec} {c : String} :
    c ∈ groupKeys rs ↔ ∃ r ∈ rs, r.category = c := by
  unfold groupKeys
  rw [mem_sortStr, List.mem_dedup, List.mem_map]

theorem groupKeys_pairwise_lt (rs : List ExpenseRec) :
    (groupKeys rs).Pairwise (fun a b => a < b) :=
  sortStr_pairwise_lt (List.nodup_dedup _)

theorem top_category_max (rs : List ExpenseRec) (hne : rs ≠ []) :
    ∃ c, top_category rs = some c ∧ (∃ r ∈ rs, r.category = c) ∧
      (∀ c', (∃ r ∈ rs, r.category = c') → catSum rs c' ≤ catSum rs c) ∧
      (∀ c', (∃ r ∈ rs, r.category = c') → catSum rs c' = catSum rs c → c ≤ c') := by
  have hpw : (category_summary rs).Pairwise (fun a b => a.1 < b.1) := by
    unfold category_summary
    rw [List.pairwise_map]
    exact groupKeys_pairwise_lt rs
  obtain ⟨q, hq⟩ : ∃ q, argmaxFirst (category_summary rs) = some q := by
    obtain ⟨r0, hr0⟩ := List.exists_mem_of_ne_nil rs hne
    have hkmem : r0.category ∈ groupKeys rs := mem_groupKeys.mpr ⟨r0, hr0, rfl⟩
    cases hcs : category_summary rs with
    | nil =>
      have hser : (r0.category, catSum rs r0.category) ∈ category_summary rs :=
        List.mem_map_of_mem _ hkmem
      rw [hcs] at hser
      cases hser
    | cons p t' =>
      obtain ⟨q, hq⟩ := argmaxFirst_cons_isSome p t'
      exact ⟨q, hq⟩
  obtain ⟨k, hk_mem, rfl⟩ := List.mem_map.mp (argmaxFirst_mem hq)
  refine ⟨k, ?_, ?_, ?_, ?_⟩
  · unfold top_category
    rw [hq]
    rfl
  · exact mem_groupKeys.mp hk_mem
  · intro c' hc'
    exact argmaxFirst_le hq _ (List.mem_map_of_mem _ (mem_groupKeys.mpr hc'))
  · intro c' hc' heq
    exact argmaxFirst_first hpw hq _ (List.mem_map_of_mem _ (mem_groupKeys.mpr hc')) heq

/-- C6: `top_category` returns the category of maximal summed amount, ties
resolved to the lexicographically smallest category; it returns the empty
sentinel on an empty record set and the unique category of a
single-category record set. -/
theorem top_category_spec :
    top_category [] = none ∧
    (∀ rs : List ExpenseRec, rs ≠ [] →
      ∃ c, top_category rs = some c ∧ (∃ r ∈ rs, r.category = c) ∧
        (∀ c', (∃ r ∈ rs, r.category = c') → catSum rs c' ≤ catSum rs c) ∧
        (∀ c', (∃ r ∈ rs, r.category = c') → catSum rs c' = catSum rs c → c ≤ c')) ∧
    (∀ (rs : List ExpenseRec) (cat : String), rs ≠ [] → (∀ r ∈ rs, r.category = cat) →
      top_category rs = some cat) := by
  refine ⟨rfl, fun rs hne => top_category_max rs hne, ?_⟩
  intro rs cat hne hall
  obtain ⟨c, htop, ⟨r, hr, hrc⟩, _, _⟩ := top_category_max rs hne
  have hceq : c = cat := by rw [← hrc]; exact hall r hr
  rw [htop, hceq]

/-- Witness for C6 on a concrete single-category record set. -/
theorem top_category_spec_witness :
    top_category [⟨1, 1, "2024-01-05", "Food", 100, ""⟩] = some "Food" :=
  top_category_spec.2.2 [⟨1, 1, "2024-01-05", "Food", 100, ""⟩] "Food" (by decide) (by decide)

/-! ### C7: filtering with "All" over the full date range keeps everything -/

theorem foldl_min_le : ∀ (l : List String) (a : String), ∀ x ∈ a :: l, l.foldl min a ≤ x := by
  intro l
  induction l with
  | nil =>
    intro a x hx
    have hxa : x = a := by simpa using hx
    rw [hxa]
    exact le_rfl
  | cons b t ih =>
    intro a x hx
    rw [List.foldl_cons]
    have hmab := ih (min a b) (min a b) (List.mem_cons_self _ _)
    rcases List.mem_cons.mp hx with hxa | hx'
    · rw [hxa]
      exact le_trans hmab (min_le_left a b)
    · rcases List.mem_cons.mp hx' with hxb | hxt
      · rw [hxb]
        exact le_trans hmab (min_le_right a b)
      · exact ih (min a b) x (List.mem_cons_of_mem _ hxt)

theorem le_foldl_max : ∀ (l : List String) (a : String), ∀ x ∈ a :: l, x ≤ l.foldl max a := by
  intro l
  induction l with
  | nil =>
    intro a x hx
    have hxa : x = a := by simpa using hx
    rw [hxa]
    exact le_rfl
  | cons b t ih =>
    intro a x hx
    rw [List.foldl_cons]
    have hmab := ih (max a b) (max a b) (List.mem_cons_self _ _)
    rcases List.mem_cons.mp hx with hxa | hx'
    · rw [hxa]
      exact le_trans (le_max_left a b) hmab
    · rcases List.mem_cons.mp hx' with hxb | hxt
      · rw [hxb]
        exact le_trans (le_max_right a b) hmab
      · exact ih (max a b) x (List.mem_cons_of_mem _ hxt)

theorem minDate_le {rs : List ExpenseRec} {r : ExpenseRec} (hr : r ∈ rs) :
    minDate rs ≤ r.date := by
  cases rs with
  | nil => cases hr
  | cons r0 t =>
    show List.foldl min r0.date (t.map (fun r => r.date)) ≤ r.date
    apply foldl_min_le
    rcases List.mem_cons.mp hr with h | h
    · rw [h]
      exact List.mem_cons_self _ _
    · exact List.mem_cons_of_mem _ (List.mem_map_of_mem _ h)

theorem le_maxDate {rs : List ExpenseRec} {r : ExpenseRec} (hr : r ∈ rs) :
    r.date ≤ maxDate rs := by
  cases rs with
  | nil => cases hr
  | cons r0 t =>
    show r.date ≤ List.foldl max r0.date (t.map (fun r => r.date))
    apply le_foldl_max
    rcases List.mem_cons.mp hr with h | h
    · rw [h]
      exact List.mem_cons_self _ _
    · exact List.mem_cons_of_mem _ (List.mem_map_of_mem _ h)

/-- C7: the Filter/Search handler with category "All" and the minimum and
maximum dates present as bounds returns the full input set — every record
passes both the category test and the inclusive date-range test. -/
theorem filter_all_full_range (rs : List ExpenseRec) :
    filterExpenses rs "All" (minDate rs) (maxDate rs) = rs := by
  unfold filterExpenses
  rw [if_pos rfl]
  apply List.filter_eq_self.mpr
  intro r hr
  rw [Bool.and_eq_true, decide_eq_true_eq, decide_eq_true_eq]
  exact ⟨minDate_le hr, le_maxDate hr⟩

/-! ### C8: monthly summary groups by calendar month, sorted ascending -/

theorem mem_monthKeys {rs : List ExpenseRec} {m : String} :
    m ∈ monthKeys rs ↔ ∃ r ∈ rs, monthKey r = m := by
  unfold monthKeys
  rw [mem_sortStr, List.mem_dedup, List.mem_map]

/-- C8: every entry of `monthly_summary` pairs a month occurring in the
input with the sum of the amounts of the records falling in that month,
every record's month appears, and the entries are ordered by month
strictly ascending. -/
theorem monthly_summary_spec (rs : List ExpenseRec) :
    (∀ p ∈ monthly_summary rs,
      (∃ r ∈ rs, monthKey r = p.1) ∧
      p.2 = ((rs.filter (fun r => monthKey r == p.1)).map (fun r => r.amount)).sum) ∧
    (∀ r ∈ rs, monthKey r ∈ (monthly_summary rs).map (fun p => p.1)) ∧
    (monthly_summary rs).Pairwise (fun p q => p.1 < q.1) := by
  refine ⟨?_, ?_, ?_⟩
  · intro p hp
    unfold monthly_summary at hp
    obtain ⟨m, hm, rfl⟩ := List.mem_map.mp hp
    exact ⟨mem_monthKeys.mp hm, rfl⟩
  · intro r hr
    exact List.mem_map_of_mem _ (List.mem_map_of_mem _ (mem_monthKeys.mpr ⟨r, hr, rfl⟩))
  · unfold monthly_summary
    rw [List.pairwise_map]
    unfold monthKeys
    exact sortStr_pairwise_lt (List.nodup_dedup _)

/-- Witness for C8: the month of a concrete record appears among the
summary's keys. -/
theorem monthly_summary_spec_witness :
    monthKey ⟨1, 1, "2024-01-05", "Food", 100, ""⟩ ∈
      (monthly_summary [⟨1, 1, "2024-01-05", "Food", 100, ""⟩]).map (fun p => p.1) :=
  (monthly_summary_spec [⟨1, 1, "2024-01-05", "Food", 100, ""⟩]).2.1
    ⟨1, 1, "2024-01-05", "Food", 100, ""⟩ (by decide)

/-! ### C10: every stored date is ISO-formatted -/

theorem digitChar_mod_isDigit (n : Nat) : (Nat.digitChar (n % 10)).isDigit = true := by
  have hall : ∀ k, k < 10 → (Nat.digitChar k).isDigit = true := by decide
  exact hall _ (Nat.mod_lt _ (by norm_num))

theorem isISODate_formatDate (d : YMD) : isISODate (formatDate d) = true := by
  have hdata : (formatDate d).data =
      [Nat.digitChar (d.year / 1000 % 10), Nat.digitChar (d.year / 100 % 10),
       Nat.digitChar (d.year / 10 % 10), Nat.digitChar (d.year % 10), '-',
       Nat.digitChar (d.month / 10 % 10), Nat.digitChar (d.month % 10), '-',
       Nat.digitChar (d.day / 10 % 10), Nat.digitChar (d.day % 10)] := rfl
  unfold isISODate
  rw [hdata]
  simp [digitChar_mod_isDigit]

theorem signUp_expenses (H : String → String) (db : DB) (u p c : String) :
    (signUp H db u p c).1.expenses = db.expenses := by
  unfold signUp
  split_ifs <;> rfl

/-- C10: in every database state reachable through the application's
handlers, every stored expense record's date field is an ISO
`YYYY-MM-DD` formatted string, because both the add handler and the edit
handler persist `strftime("%Y-%m-%d")` output. -/
theorem reachable_dates_iso {db : DB} (h : Reachable db) :
    ∀ r ∈ db.expenses, isISODate r.date = true := by
  induction h with
  | init =>
    intro r hr
    exact absurd hr (List.not_mem_nil r)
  | signUpStep H u p c hdb ih =>
    intro r hr
    rw [signUp_expenses] at hr
    exact ih r hr
  | addStep uid d cat amt note hdb hvalid ih =>
    intro r hr
    simp only [addExpense] at hr
    rcases List.mem_append.mp hr with h' | h'
    · exact ih r h'
    · have hre := List.mem_singleton.mp h'
      rw [hre]
      exact isISODate_formatDate d
  | updateStep rid d cat amt note hdb hvalid ih =>
    intro r hr
    simp only [updateExpense] at hr
    obtain ⟨r0, hr0, rfl⟩ := List.mem_map.mp hr
    by_cases h' : r0.id = rid
    · rw [if_pos h']
      exact isISODate_formatDate d
    · rw [if_neg h']
      exact ih r0 hr0
  | deleteStep rid hdb ih =>
    intro r hr
    simp only [deleteExpense] at hr
    exact ih r (List.mem_of_mem_filter hr)

/-- Witness for C10: a concrete reachable state (one added record) whose
stored date satisfies the ISO format check. -/
theorem reachable_dates_iso_witness :
    isISODate (formatDate ⟨2024, 1, 5⟩) = true :=
  reachable_dates_iso
    (Reachable.addStep 1 ⟨2024, 1, 5⟩ "Food" 100 "lunch" Reachable.init
      (by unfold YMD.Valid; decide))
    ⟨1, 1, formatDate ⟨2024, 1, 5⟩, "Food", 100, "lunch"⟩ (by decide)
